import Mathlib

/-!
Shallow embedding of `src/pint/models/solar_system_shapiro.py`:
the `SolarSystemShapiro` delay component of the PINT pulsar-timing package.

Conventions of the embedding:
* position vectors are `Fin 3 → ℝ`, in meters (the unit astropy's `const.au`
  is expressed in, so the `(r - rcostheta) / au` normalisation is literal);
* a batch of TOAs is a list of observatory groups; each group carries the
  observatory label, the `tdbld` epoch column, and the per-body position
  columns as an association list keyed by column name (an absent key models
  a missing astropy-table column, whose access raises `KeyError`);
* the aggregate delay function returns `Except String (List ℝ)`: the
  `.error` case models the Python `KeyError` escaping to the caller;
* numpy's vectorised arithmetic is modelled element-wise over lists, and the
  in-place `delay[loind:hiind] += xs` slice accumulation is the `addSlice`
  function below.
-/

namespace SolarShapiro

abbrev Vec3 := Fin 3 → ℝ

/-- Modelled from the spec: one astronomical unit (astropy's `const.au`,
imported by the module but defined outside `src/`), in meters. -/
noncomputable def au : ℝ := 149597870700

/-- Modelled from the spec: the Sun's mass in time units, `GM/c^3` in seconds
(the `Tsun` constant imported from the package root, which is outside `src/`). -/
noncomputable def Tsun : ℝ := 4.925490947e-6

/-- Modelled from the spec: Mercury's mass in time units (`Tmercury`, outside `src/`). -/
noncomputable def Tmercury : ℝ := 8.176e-12

/-- Modelled from the spec: Venus's mass in time units (`Tvenus`, outside `src/`). -/
noncomputable def Tvenus : ℝ := 1.2056e-11

/-- Modelled from the spec: Earth's mass in time units (`Tearth`, outside `src/`). -/
noncomputable def Tearth : ℝ := 1.4766e-11

/-- Modelled from the spec: Mars's mass in time units (`Tmars`, outside `src/`). -/
noncomputable def Tmars : ℝ := 1.5857e-12

/-- Modelled from the spec: Jupiter's mass in time units (`Tjupiter`, outside `src/`). -/
noncomputable def Tjupiter : ℝ := 4.70255e-9

/-- Modelled from the spec: Saturn's mass in time units (`Tsaturn`, outside `src/`). -/
noncomputable def Tsaturn : ℝ := 1.40797e-9

/-- Modelled from the spec: Uranus's mass in time units (`Turanus`, outside `src/`). -/
noncomputable def Turanus : ℝ := 2.14539e-10

/-- Modelled from the spec: Neptune's mass in time units (`Tneptune`, outside `src/`). -/
noncomputable def Tneptune : ℝ := 2.54488e-10

/-- The `_ss_mass_sec` dictionary of `SolarSystemShapiro`: body name to
mass-in-seconds.  (The default branch is never reached by the module, which
only looks up the nine keys below.) -/
noncomputable def ss_mass_sec : String → ℝ
  | "sun" => Tsun
  | "mercury" => Tmercury
  | "venus" => Tvenus
  | "earth" => Tearth
  | "mars" => Tmars
  | "jupiter" => Tjupiter
  | "saturn" => Tsaturn
  | "uranus" => Turanus
  | "neptune" => Tneptune
  | _ => 0

/-- Python's `str.upper()`: uppercase every character of the string. -/
def str_upper (s : String) : String := String.mk (s.data.map Char.toUpper)

/-- The `parse_value` lambda of the `PLANET_SHAPIRO` parameter:
`lambda x: x.upper() == 'Y'`. -/
def parse_value (x : String) : Bool := str_upper x == "Y"

/-- The `print_value` lambda of the `PLANET_SHAPIRO` parameter:
`lambda x: 'Y' if x else 'N'`. -/
def print_value (x : Bool) : String := if x then "Y" else "N"

/-- `numpy.sqrt(numpy.sum(obj_pos**2))` of one row: the Euclidean length of
a position vector, as the source computes it. -/
noncomputable def norm3 (p : Vec3) : ℝ := Real.sqrt (∑ i, p i ^ 2)

/-- `numpy.sum(obj_pos*psr_dir)` of one row: the dot product. -/
def dot3 (p d : Vec3) : ℝ := ∑ i, p i * d i

/-- One row of `ss_obj_shapiro_delay`: the Shapiro delay in seconds for one
observation, from the object position vector `obj_pos` (observer to body),
the pulsar direction unit vector `psr_dir` and the object mass `T_obj` in
seconds.  `r` and `rcostheta` are exactly the source's intermediates. -/
noncomputable def ss_obj_shapiro_delay1 (obj_pos psr_dir : Vec3) (T_obj : ℝ) : ℝ :=
  let r := norm3 obj_pos
  let rcostheta := dot3 obj_pos psr_dir
  let delay := -2 * T_obj * Real.log ((r - rcostheta) / au)
  delay

/-- The static method `ss_obj_shapiro_delay`, vectorised over the rows of a
group exactly as the numpy arithmetic is (element-wise). -/
noncomputable def ss_obj_shapiro_delay (obj_pos psr_dir : List Vec3) (T_obj : ℝ) : List ℝ :=
  List.zipWith (fun p d => ss_obj_shapiro_delay1 p d T_obj) obj_pos psr_dir

/-- One observatory group of an astropy TOA table: the `obs` key, the
`tdbld` epoch column (one entry per observation), and the body position
columns (`obs_sun_pos`, `obs_jupiter_pos`, ...) as an association list. -/
structure TOAGroup where
  obs : String
  tdbld : List ℝ
  cols : List (String × List Vec3)

/-- A TOA batch: its contiguous observatory groups, in table order. -/
structure TOAs where
  groups : List TOAGroup

/-- The `SolarSystemShapiro` component state the delay function reads: the
value of its `PLANET_SHAPIRO` parameter, and the `ssb_to_psb_xyz` direction
provider contributed by the Astrometry model (pulsar direction per epoch). -/
structure SolarSystemShapiro where
  PLANET_SHAPIRO : Bool
  ssb_to_psb_xyz : ℝ → Vec3

/-- Number of observations in a group (the length of its columns). -/
def groupSize (g : TOAGroup) : ℕ := g.tdbld.length

/-- Column lookup in a group, `none` when the column is absent. -/
def lookupCol (g : TOAGroup) (name : String) : Option (List Vec3) :=
  (g.cols.find? (fun pr => pr.1 == name)).map Prod.snd

/-- `grp[name]` on an astropy table: the column, or a `KeyError` naming the
missing column. -/
def getCol (g : TOAGroup) (name : String) : Except String (List Vec3) :=
  match lookupCol g name with
  | some c => .ok c
  | none => .error ("KeyError: " ++ name)

/-- `delay[lo : lo + xs.length] += xs` on a delay vector: element-wise
addition of `xs` into the slice starting at index `lo`, everything outside
the slice untouched. -/
def addSlice : List ℝ → ℕ → List ℝ → List ℝ
  | [], _, _ => []
  | d, _, [] => d
  | v :: d, 0, x :: xs => (v + x) :: addSlice d 0 xs
  | v :: d, lo + 1, xs => v :: addSlice d lo xs

/-- The planet tuple of the source's `for pl in (...)` loop. -/
def planet_list : List String := ["jupiter", "saturn", "venus", "uranus"]

/-- The body of the `for pl in (...)` loop: fetch the planet's position
column (a missing column is a `KeyError`) and accumulate its Shapiro delay
into the group's slice. -/
noncomputable def planetStep (g : TOAGroup) (psr_dir : List Vec3) (lo : ℕ)
    (acc : List ℝ) (pl : String) : Except String (List ℝ) := do
  let pos ← getCol g ("obs_" ++ pl ++ "_pos")
  pure (addSlice acc lo (ss_obj_shapiro_delay pos psr_dir (ss_mass_sec pl)))

/-- The planetary loop of `solar_system_shapiro_delay`: fold `planetStep`
over `planet_list`. -/
noncomputable def addPlanets (g : TOAGroup) (psr_dir : List Vec3) (lo : ℕ)
    (d : List ℝ) : Except String (List ℝ) :=
  planet_list.foldlM (planetStep g psr_dir lo) d

/-- One iteration of the group loop of `solar_system_shapiro_delay`:
a `Barycenter` group is skipped (slice left untouched), otherwise the Sun
contribution is always added and, when `PLANET_SHAPIRO` is set, the four
planets' contributions follow. -/
noncomputable def processGroup (m : SolarSystemShapiro) (g : TOAGroup) (d : List ℝ)
    (lo : ℕ) : Except String (List ℝ) :=
  if g.obs = "Barycenter" then .ok d
  else do
    let psr_dir := g.tdbld.map m.ssb_to_psb_xyz
    let sun ← getCol g "obs_sun_pos"
    let d1 := addSlice d lo (ss_obj_shapiro_delay sun psr_dir (ss_mass_sec "sun"))
    if m.PLANET_SHAPIRO then addPlanets g psr_dir lo d1 else pure d1

/-- The group loop, threading the delay vector and the group's start index
`lo` (the `loind` of the source; `hiind = lo + groupSize g`), generic in the
per-group processor so that the reference variants below share it. -/
noncomputable def runWith (f : TOAGroup → List ℝ → ℕ → Except String (List ℝ)) :
    List ℝ → ℕ → List TOAGroup → Except String (List ℝ)
  | d, _, [] => .ok d
  | d, lo, g :: gs => do
    let d1 ← f g d lo
    runWith f d1 (lo + groupSize g) gs

/-- `len(toas)`: the total observation count of the batch. -/
def totalLen (t : TOAs) : ℕ := (t.groups.map groupSize).sum

/-- `solar_system_shapiro_delay(self, toas)`: zero-initialised delay vector
of length `len(toas)`, then the group loop. -/
noncomputable def solar_system_shapiro_delay (m : SolarSystemShapiro) (t : TOAs) :
    Except String (List ℝ) :=
  runWith (processGroup m) (List.replicate (totalLen t) 0) 0 t.groups

/-- Start index of group `ii` in the batch's delay vector (`loind`): the
observations of groups strictly before it. -/
def offsetOf (t : TOAs) (ii : ℕ) : ℕ := ((t.groups.take ii).map groupSize).sum

/-- Element-wise addition of two delay vectors. -/
def addVec (a b : List ℝ) : List ℝ := List.zipWith (· + ·) a b

/-- Modelled from the spec: the Sun-only reference of the toggle property, a
per-group processor that skips barycentric groups and adds exactly the Sun's
contribution. -/
noncomputable def processGroupSunOnly (m : SolarSystemShapiro) (g : TOAGroup)
    (d : List ℝ) (lo : ℕ) : Except String (List ℝ) :=
  if g.obs = "Barycenter" then .ok d
  else do
    let psr_dir := g.tdbld.map m.ssb_to_psb_xyz
    let sun ← getCol g "obs_sun_pos"
    pure (addSlice d lo (ss_obj_shapiro_delay sun psr_dir Tsun))

/-- Modelled from the spec: the Sun-only aggregate delay. -/
noncomputable def sun_only_delay (m : SolarSystemShapiro) (t : TOAs) :
    Except String (List ℝ) :=
  runWith (processGroupSunOnly m) (List.replicate (totalLen t) 0) 0 t.groups

/-- Modelled from the spec: a per-group processor that adds the Sun's
contribution plus exactly the contributions of Jupiter, Saturn, Venus and
Uranus (the spec's fixed planetary subset), each with its own position
column and mass-in-time-units. -/
noncomputable def processGroupSunPlanets (m : SolarSystemShapiro) (g : TOAGroup)
    (d : List ℝ) (lo : ℕ) : Except String (List ℝ) :=
  if g.obs = "Barycenter" then .ok d
  else do
    let psr_dir := g.tdbld.map m.ssb_to_psb_xyz
    let sun ← getCol g "obs_sun_pos"
    let d1 := addSlice d lo (ss_obj_shapiro_delay sun psr_dir Tsun)
    let jup ← getCol g "obs_jupiter_pos"
    let d2 := addSlice d1 lo (ss_obj_shapiro_delay jup psr_dir Tjupiter)
    let sat ← getCol g "obs_saturn_pos"
    let d3 := addSlice d2 lo (ss_obj_shapiro_delay sat psr_dir Tsaturn)
    let ven ← getCol g "obs_venus_pos"
    let d4 := addSlice d3 lo (ss_obj_shapiro_delay ven psr_dir Tvenus)
    let ura ← getCol g "obs_uranus_pos"
    let d5 := addSlice d4 lo (ss_obj_shapiro_delay ura psr_dir Turanus)
    pure d5

/-- Modelled from the spec: the Sun-plus-{Jupiter, Saturn, Venus, Uranus}
aggregate delay. -/
noncomputable def sun_planets_delay (m : SolarSystemShapiro) (t : TOAs) :
    Except String (List ℝ) :=
  runWith (processGroupSunPlanets m) (List.replicate (totalLen t) 0) 0 t.groups

/-- The position columns of the planets the module deliberately excludes. -/
def excluded_cols : List String :=
  ["obs_mercury_pos", "obs_earth_pos", "obs_mars_pos", "obs_neptune_pos"]

/-- Two groups that agree on everything `solar_system_shapiro_delay` can
read except possibly the excluded planets' position columns. -/
def GroupAgrees (g g' : TOAGroup) : Prop :=
  g.obs = g'.obs ∧ g.tdbld = g'.tdbld ∧
    ∀ name, name ∉ excluded_cols → lookupCol g name = lookupCol g' name

/-- Two batches that agree group-by-group except possibly on the excluded
planets' position columns. -/
def BatchAgrees (t t' : TOAs) : Prop :=
  List.Forall₂ GroupAgrees t.groups t'.groups

/-- Fixture: a component with `PLANET_SHAPIRO` enabled and a constant
direction provider. -/
noncomputable def mTrue : SolarSystemShapiro := ⟨true, fun _ _ => 0⟩

/-- Fixture: a component with `PLANET_SHAPIRO` disabled. -/
noncomputable def mFalse : SolarSystemShapiro := ⟨false, fun _ _ => 0⟩

/-- Fixture: an empty batch. -/
def tEmpty : TOAs := ⟨[]⟩

/-- Fixture: a non-barycentric group with no position columns at all. -/
def gObs : TOAGroup := ⟨"gbt", [], []⟩

/-- Fixture: a batch holding only `gObs`. -/
def tBad : TOAs := ⟨[gObs]⟩

/-- Fixture: a barycentric group with one observation. -/
def gBary : TOAGroup := ⟨"Barycenter", [0], []⟩

/-- Fixture: a batch holding only `gBary`. -/
def tBary : TOAs := ⟨[gBary]⟩

/-- Fixture: the all-ones vector. -/
noncomputable def vOne : Vec3 := fun _ => 1

/-- Fixture: the zero vector. -/
def vZero : Vec3 := fun _ => 0

/-- C1: `ss_obj_shapiro_delay` returns `-2 * T * ln((r - rcostheta) / au)`
where `r` is the Euclidean norm of the object position vector and
`rcostheta` its dot product with the pulsar direction; the leading sign is
negative. -/
theorem C1_ss_obj_shapiro_delay_formula (p d : Vec3) (T : ℝ) :
    ss_obj_shapiro_delay1 p d T =
      -2 * T * Real.log
        ((‖((WithLp.equiv 2 (Fin 3 → ℝ)).symm p : EuclideanSpace ℝ (Fin 3))‖
          - Matrix.dotProduct p d) / au) := by
  have hnorm : ‖((WithLp.equiv 2 (Fin 3 → ℝ)).symm p : EuclideanSpace ℝ (Fin 3))‖
      = Real.sqrt (∑ i, p i ^ 2) := by
    rw [EuclideanSpace.norm_eq]
    simp [WithLp.equiv_symm_pi_apply, Real.norm_eq_abs, sq_abs]
  have hdot : Matrix.dotProduct p d = ∑ i, p i * d i := rfl
  rw [hnorm, hdot]
  simp only [ss_obj_shapiro_delay1, norm3, dot3]

/-- C8: the `PLANET_SHAPIRO` serialisation round-trips:
`parse (print v) = v` for both booleans, with `print true = "Y"` and
`print false = "N"`. -/
theorem C8_round_trip :
    parse_value (print_value true) = true ∧ parse_value (print_value false) = false ∧
      print_value true = "Y" ∧ print_value false = "N" := by
  decide

/-- C9 counterexample: `print` is not a left inverse of `parse` on every
accepted text: `parse` accepts `"y"`, yet `print (parse "y") = "Y" ≠ "y"`. -/
theorem C9_not_left_inverse : print_value (parse_value "y") ≠ "y" := by
  decide

/-- C9 amended: `print` is a left inverse of `parse` on the canonical texts
`"Y"` and `"N"` only. -/
theorem C9_left_inverse_canonical :
    print_value (parse_value "Y") = "Y" ∧ print_value (parse_value "N") = "N" := by
  decide

/-- C10: `parse_value` is total over strings: it returns `true` exactly when
the uppercase of the input is `"Y"`, and `false` for everything else,
including `"N"`, the empty string and malformed text. -/
theorem C10_parse_total (s : String) :
    (parse_value s = true ↔ str_upper s = "Y") ∧
      parse_value "N" = false ∧ parse_value "" = false ∧
      parse_value "maybe" = false := by
  refine ⟨?_, by decide, by decide, by decide⟩
  simp [parse_value]

/-- Slice accumulation preserves the vector's length. -/
theorem addSlice_length : ∀ (d : List ℝ) (lo : ℕ) (xs : List ℝ),
    (addSlice d lo xs).length = d.length
  | [], _, _ => by simp [addSlice]
  | _ :: _, _, [] => by simp [addSlice]
  | v :: d, 0, x :: xs => by
    simp [addSlice, addSlice_length d 0 xs]
  | v :: d, lo + 1, x :: xs => by
    simp [addSlice, addSlice_length d lo (x :: xs)]

/-- Entries strictly before the slice are untouched. -/
theorem addSlice_getD_lt : ∀ (d : List ℝ) (lo : ℕ) (xs : List ℝ) (i : ℕ),
    i < lo → (addSlice d lo xs).getD i 0 = d.getD i 0
  | [], _, _, _, _ => by simp [addSlice]
  | _ :: _, _, [], _, _ => by simp [addSlice]
  | v :: d, 0, x :: xs, i, h => by omega
  | v :: d, lo + 1, x :: xs, 0, _ => by simp [addSlice]
  | v :: d, lo + 1, x :: xs, i + 1, h => by
    simp only [addSlice, List.getD_cons_succ]
    exact addSlice_getD_lt d lo (x :: xs) i (by omega)

/-- Entries at or beyond the end of the slice are untouched. -/
theorem addSlice_getD_ge : ∀ (d : List ℝ) (lo : ℕ) (xs : List ℝ) (i : ℕ),
    lo + xs.length ≤ i → (addSlice d lo xs).getD i 0 = d.getD i 0
  | [], _, _, _, _ => by simp [addSlice]
  | _ :: _, _, [], _, _ => by simp [addSlice]
  | v :: d, 0, x :: xs, 0, h => by simp at h
  | v :: d, 0, x :: xs, i + 1, h => by
    simp only [addSlice, List.getD_cons_succ]
    exact addSlice_getD_ge d 0 xs i (by simp at h ⊢; omega)
  | v :: d, lo + 1, x :: xs, 0, h => by simp [addSlice]
  | v :: d, lo + 1, x :: xs, i + 1, h => by
    simp only [addSlice, List.getD_cons_succ]
    exact addSlice_getD_ge d lo (x :: xs) i (by simp at h ⊢; omega)

/-- Element-wise addition with the all-zero vector of matching length. -/
theorem addVec_replicate_zero : ∀ (d : List ℝ) (n : ℕ), d.length = n →
    addVec d (List.replicate n 0) = d
  | [], 0, _ => rfl
  | v :: d, n + 1, h => by
    simp only [List.replicate, addVec, List.zipWith_cons_cons, add_zero]
    have := addVec_replicate_zero d n (by simpa using h)
    simpa [addVec] using this

/-- `addVec` of equal-length vectors has that length. -/
theorem addVec_length (a b : List ℝ) (h : a.length = b.length) :
    (addVec a b).length = a.length := by
  simp [addVec, h]

/-- `addVec` on two conses. -/
theorem addVec_cons (a b : ℝ) (as bs : List ℝ) :
    addVec (a :: as) (b :: bs) = (a + b) :: addVec as bs := rfl

/-- Slice accumulation commutes with element-wise addition of a background
vector of the same length: nothing is overwritten, only added. -/
theorem addSlice_addVec : ∀ (d0 d1 : List ℝ) (lo : ℕ) (xs : List ℝ),
    d0.length = d1.length →
    addSlice (addVec d0 d1) lo xs = addVec d0 (addSlice d1 lo xs)
  | [], [], _, _, _ => by simp [addVec, addSlice]
  | [], _ :: _, _, _, h => by simp at h
  | _ :: _, [], _, _, h => by simp at h
  | v :: d0, w :: d1, lo, [], _ => by simp [addVec_cons, addSlice]
  | v :: d0, w :: d1, 0, x :: xs, h => by
    show (v + w + x) :: addSlice (addVec d0 d1) 0 xs
        = (v + (w + x)) :: addVec d0 (addSlice d1 0 xs)
    rw [addSlice_addVec d0 d1 0 xs (by simpa using h)]
    congr 1
    ring
  | v :: d0, w :: d1, lo + 1, x :: xs, h => by
    show (v + w) :: addSlice (addVec d0 d1) lo (x :: xs)
        = (v + w) :: addVec d0 (addSlice d1 lo (x :: xs))
    rw [addSlice_addVec d0 d1 lo (x :: xs) (by simpa using h)]

/-- Every entry of the all-zero vector reads as zero. -/
theorem getD_replicate_zero : ∀ (n i : ℕ), (List.replicate n (0:ℝ)).getD i 0 = 0
  | 0, 0 => rfl
  | 0, _ + 1 => rfl
  | _ + 1, 0 => rfl
  | n + 1, i + 1 => getD_replicate_zero n i

/-- The vectorised Shapiro delay of a group never has more rows than the
direction array. -/
theorem ss_obj_shapiro_delay_length_le (pos dir : List Vec3) (T : ℝ) :
    (ss_obj_shapiro_delay pos dir T).length ≤ dir.length := by
  simp [ss_obj_shapiro_delay]

/-- `Except` bind on a success. -/
theorem except_ok_bind {α β ε : Type} (a : α) (k : α → Except ε β) :
    (Except.ok a >>= k) = k a := rfl

/-- `Except` bind on a failure. -/
theorem except_error_bind {α β ε : Type} (e : ε) (k : α → Except ε β) :
    ((Except.error e : Except ε α) >>= k) = .error e := rfl

/-- The planet loop body when the planet's column is missing. -/
theorem planetStep_of_none (g : TOAGroup) (dir : List Vec3) (lo : ℕ) (acc : List ℝ)
    (pl : String) (h : lookupCol g ("obs_" ++ pl ++ "_pos") = none) :
    planetStep g dir lo acc pl = .error ("KeyError: " ++ ("obs_" ++ pl ++ "_pos")) := by
  unfold planetStep getCol
  rw [h]
  rfl

/-- The planet loop body when the planet's column is present. -/
theorem planetStep_of_some (g : TOAGroup) (dir : List Vec3) (lo : ℕ) (acc : List ℝ)
    (pl : String) (pos : List Vec3) (h : lookupCol g ("obs_" ++ pl ++ "_pos") = some pos) :
    planetStep g dir lo acc pl
      = .ok (addSlice acc lo (ss_obj_shapiro_delay pos dir (ss_mass_sec pl))) := by
  unfold planetStep getCol
  rw [h]
  rfl

/-- A successful planet fold preserves the vector's length. -/
theorem foldPlanets_ok_length (g : TOAGroup) (dir : List Vec3) (lo : ℕ) :
    ∀ (l : List String) (d d' : List ℝ),
    List.foldlM (planetStep g dir lo) d l = .ok d' → d'.length = d.length
  | [], d, d', h => by
    simp only [List.foldlM_nil] at h
    cases h
    rfl
  | pl :: l, d, d', h => by
    rw [List.foldlM_cons] at h
    cases hl : lookupCol g ("obs_" ++ pl ++ "_pos") with
    | none =>
      rw [planetStep_of_none g dir lo d pl hl, except_error_bind] at h
      exact absurd h (by simp)
    | some pos =>
      rw [planetStep_of_some g dir lo d pl pos hl, except_ok_bind] at h
      rw [foldPlanets_ok_length g dir lo l _ d' h, addSlice_length]

/-- A successful planet fold leaves every entry outside the group's slice
unchanged. -/
theorem foldPlanets_ok_getD (g : TOAGroup) (dir : List Vec3) (lo : ℕ) :
    ∀ (l : List String) (d d' : List ℝ),
    List.foldlM (planetStep g dir lo) d l = .ok d' →
    ∀ i, i < lo ∨ lo + dir.length ≤ i → d'.getD i 0 = d.getD i 0
  | [], d, d', h, i, _ => by
    simp only [List.foldlM_nil] at h
    cases h
    rfl
  | pl :: l, d, d', h, i, hi => by
    rw [List.foldlM_cons] at h
    cases hl : lookupCol g ("obs_" ++ pl ++ "_pos") with
    | none =>
      rw [planetStep_of_none g dir lo d pl hl, except_error_bind] at h
      exact absurd h (by simp)
    | some pos =>
      rw [planetStep_of_some g dir lo d pl pos hl, except_ok_bind] at h
      rw [foldPlanets_ok_getD g dir lo l _ d' h i hi]
      rcases hi with hi | hi
      · exact addSlice_getD_lt d lo _ i hi
      · refine addSlice_getD_ge d lo _ i ?_
        have := ss_obj_shapiro_delay_length_le pos dir (ss_mass_sec pl)
        omega

/-- The planet fold is additive in a background vector of matching length. -/
theorem foldPlanets_addVec (g : TOAGroup) (dir : List Vec3) (lo : ℕ) :
    ∀ (l : List String) (d0 d1 : List ℝ), d0.length = d1.length →
    List.foldlM (planetStep g dir lo) (addVec d0 d1) l
      = (List.foldlM (planetStep g dir lo) d1 l).map (addVec d0)
  | [], d0, d1, _ => by simp only [List.foldlM_nil]; rfl
  | pl :: l, d0, d1, h => by
    rw [List.foldlM_cons, List.foldlM_cons]
    cases hl : lookupCol g ("obs_" ++ pl ++ "_pos") with
    | none =>
      rw [planetStep_of_none g dir lo _ pl hl, planetStep_of_none g dir lo d1 pl hl]
      rfl
    | some pos =>
      rw [planetStep_of_some g dir lo _ pl pos hl, planetStep_of_some g dir lo d1 pl pos hl,
        except_ok_bind, except_ok_bind, addSlice_addVec d0 d1 lo _ h]
      exact foldPlanets_addVec g dir lo l d0 _ (by rw [h, addSlice_length])

/-- If some listed planet's column is missing, the planet fold fails. -/
theorem foldPlanets_error (g : TOAGroup) (dir : List Vec3) (lo : ℕ) :
    ∀ (l : List String) (pl : String), pl ∈ l →
    lookupCol g ("obs_" ++ pl ++ "_pos") = none →
    ∀ d, ∃ e, List.foldlM (planetStep g dir lo) d l = .error e
  | [], pl, hmem, _, _ => absurd hmem (List.not_mem_nil pl)
  | q :: l, pl, hmem, hmiss, d => by
    rw [List.foldlM_cons]
    cases hq : lookupCol g ("obs_" ++ q ++ "_pos") with
    | none =>
      exact ⟨_, by rw [planetStep_of_none g dir lo d q hq, except_error_bind]⟩
    | some pos =>
      rw [planetStep_of_some g dir lo d q pos hq, except_ok_bind]
      have hql : pl ∈ l := by
        rcases List.mem_cons.mp hmem with h1 | h1
        · subst h1
          rw [hmiss] at hq
          exact absurd hq (by simp)
        · exact h1
      exact foldPlanets_error g dir lo l pl hql hmiss _

/-- A barycentric group is skipped: the delay vector is returned unchanged
and no error can arise. -/
theorem processGroup_bary (m : SolarSystemShapiro) (g : TOAGroup) (d : List ℝ) (lo : ℕ)
    (h : g.obs = "Barycenter") : processGroup m g d lo = .ok d := by
  simp [processGroup, h]

/-- A non-barycentric group with no Sun column fails with a `KeyError`. -/
theorem processGroup_sun_none (m : SolarSystemShapiro) (g : TOAGroup) (d : List ℝ) (lo : ℕ)
    (hb : ¬ g.obs = "Barycenter") (h : lookupCol g "obs_sun_pos" = none) :
    processGroup m g d lo = .error ("KeyError: " ++ "obs_sun_pos") := by
  unfold processGroup getCol
  rw [if_neg hb, h]
  rfl

/-- A non-barycentric group with a Sun column and `PLANET_SHAPIRO` enabled:
the Sun's contribution is added and the planet loop runs. -/
theorem processGroup_sun_some_true (m : SolarSystemShapiro) (g : TOAGroup) (d : List ℝ)
    (lo : ℕ) (pos : List Vec3) (hb : ¬ g.obs = "Barycenter")
    (hp : m.PLANET_SHAPIRO = true) (h : lookupCol g "obs_sun_pos" = some pos) :
    processGroup m g d lo
      = addPlanets g (g.tdbld.map m.ssb_to_psb_xyz) lo
          (addSlice d lo (ss_obj_shapiro_delay pos (g.tdbld.map m.ssb_to_psb_xyz)
            (ss_mass_sec "sun"))) := by
  unfold processGroup getCol
  rw [if_neg hb, h, hp]
  rfl

/-- A non-barycentric group with a Sun column and `PLANET_SHAPIRO` disabled:
only the Sun's contribution is added. -/
theorem processGroup_sun_some_false (m : SolarSystemShapiro) (g : TOAGroup) (d : List ℝ)
    (lo : ℕ) (pos : List Vec3) (hb : ¬ g.obs = "Barycenter")
    (hp : m.PLANET_SHAPIRO = false) (h : lookupCol g "obs_sun_pos" = some pos) :
    processGroup m g d lo
      = .ok (addSlice d lo (ss_obj_shapiro_delay pos (g.tdbld.map m.ssb_to_psb_xyz)
          (ss_mass_sec "sun"))) := by
  unfold processGroup getCol
  rw [if_neg hb, h, hp]
  rfl

/-- A successful group step preserves the vector's length. -/
theorem processGroup_ok_length (m : SolarSystemShapiro) (g : TOAGroup) (d : List ℝ)
    (lo : ℕ) (d' : List ℝ) (h : processGroup m g d lo = .ok d') :
    d'.length = d.length := by
  by_cases hb : g.obs = "Barycenter"
  · rw [processGroup_bary m g d lo hb] at h
    cases h
    rfl
  · cases hs : lookupCol g "obs_sun_pos" with
    | none =>
      rw [processGroup_sun_none m g d lo hb hs] at h
      exact absurd h (by simp)
    | some pos =>
      cases hp : m.PLANET_SHAPIRO with
      | false =>
        rw [processGroup_sun_some_false m g d lo pos hb hp hs] at h
        cases h
        rw [addSlice_length]
      | true =>
        rw [processGroup_sun_some_true m g d lo pos hb hp hs] at h
        rw [foldPlanets_ok_length g _ lo planet_list _ d' h, addSlice_length]

/-- A successful group step leaves every entry outside the group's slice
`[lo, lo + groupSize g)` unchanged. -/
theorem processGroup_ok_getD (m : SolarSystemShapiro) (g : TOAGroup) (d : List ℝ)
    (lo : ℕ) (d' : List ℝ) (h : processGroup m g d lo = .ok d') (i : ℕ)
    (hi : i < lo ∨ lo + groupSize g ≤ i) : d'.getD i 0 = d.getD i 0 := by
  have hdir : (g.tdbld.map m.ssb_to_psb_xyz).length = groupSize g := by
    simp [groupSize]
  by_cases hb : g.obs = "Barycenter"
  · rw [processGroup_bary m g d lo hb] at h
    cases h
    rfl
  · cases hs : lookupCol g "obs_sun_pos" with
    | none =>
      rw [processGroup_sun_none m g d lo hb hs] at h
      exact absurd h (by simp)
    | some pos =>
      have hsun_out : (addSlice d lo (ss_obj_shapiro_delay pos
          (g.tdbld.map m.ssb_to_psb_xyz) (ss_mass_sec "sun"))).getD i 0 = d.getD i 0 := by
        rcases hi with hi | hi
        · exact addSlice_getD_lt d lo _ i hi
        · refine addSlice_getD_ge d lo _ i ?_
          have := ss_obj_shapiro_delay_length_le pos
            (g.tdbld.map m.ssb_to_psb_xyz) (ss_mass_sec "sun")
          omega
      cases hp : m.PLANET_SHAPIRO with
      | false =>
        rw [processGroup_sun_some_false m g d lo pos hb hp hs] at h
        cases h
        exact hsun_out
      | true =>
        rw [processGroup_sun_some_true m g d lo pos hb hp hs] at h
        rw [foldPlanets_ok_getD g _ lo planet_list _ d' h i (by omega)]
        exact hsun_out

/-- The group step is additive in a background vector of matching length. -/
theorem processGroup_addVec (m : SolarSystemShapiro) (g : TOAGroup) (d0 d1 : List ℝ)
    (lo : ℕ) (h : d0.length = d1.length) :
    processGroup m g (addVec d0 d1) lo = (processGroup m g d1 lo).map (addVec d0) := by
  by_cases hb : g.obs = "Barycenter"
  · rw [processGroup_bary m g _ lo hb, processGroup_bary m g d1 lo hb]
    rfl
  · cases hs : lookupCol g "obs_sun_pos" with
    | none =>
      rw [processGroup_sun_none m g _ lo hb hs, processGroup_sun_none m g d1 lo hb hs]
      rfl
    | some pos =>
      cases hp : m.PLANET_SHAPIRO with
      | false =>
        rw [processGroup_sun_some_false m g _ lo pos hb hp hs,
          processGroup_sun_some_false m g d1 lo pos hb hp hs,
          addSlice_addVec d0 d1 lo _ h]
        rfl
      | true =>
        rw [processGroup_sun_some_true m g _ lo pos hb hp hs,
          processGroup_sun_some_true m g d1 lo pos hb hp hs,
          addSlice_addVec d0 d1 lo _ h]
        exact foldPlanets_addVec g _ lo planet_list d0 _ (by rw [h, addSlice_length])

/-- With `PLANET_SHAPIRO` enabled, a non-barycentric group with a missing
planet column makes the group step fail. -/
theorem processGroup_error_planet (m : SolarSystemShapiro) (g : TOAGroup) (d : List ℝ)
    (lo : ℕ) (pl : String) (hp : m.PLANET_SHAPIRO = true) (hb : ¬ g.obs = "Barycenter")
    (hpl : pl ∈ planet_list) (hmiss : lookupCol g ("obs_" ++ pl ++ "_pos") = none) :
    ∃ e, processGroup m g d lo = .error e := by
  cases hs : lookupCol g "obs_sun_pos" with
  | none => exact ⟨_, processGroup_sun_none m g d lo hb hs⟩
  | some pos =>
    rw [processGroup_sun_some_true m g d lo pos hb hp hs]
    exact foldPlanets_error g _ lo planet_list pl hpl hmiss _

/-- A successful run of the group loop preserves the vector's length,
provided each step does. -/
theorem runWith_ok_length (f : TOAGroup → List ℝ → ℕ → Except String (List ℝ))
    (hf : ∀ g d lo d', f g d lo = .ok d' → d'.length = d.length) :
    ∀ (gs : List TOAGroup) (d : List ℝ) (lo : ℕ) (d' : List ℝ),
    runWith f d lo gs = .ok d' → d'.length = d.length
  | [], d, lo, d', h => by
    simp only [runWith] at h
    cases h
    rfl
  | g :: gs, d, lo, d', h => by
    simp only [runWith] at h
    cases hg : f g d lo with
    | error e =>
      rw [hg, except_error_bind] at h
      exact absurd h (by simp)
    | ok d1 =>
      rw [hg, except_ok_bind] at h
      rw [runWith_ok_length f hf gs d1 _ d' h, hf g d lo d1 hg]

/-- A successful run of the group loop leaves every entry strictly before
the running start index unchanged, provided each step stays inside its own
slice. -/
theorem runWith_ok_getD_lt (f : TOAGroup → List ℝ → ℕ → Except String (List ℝ))
    (hf : ∀ g d lo d', f g d lo = .ok d' →
      ∀ i, i < lo ∨ lo + groupSize g ≤ i → d'.getD i 0 = d.getD i 0) :
    ∀ (gs : List TOAGroup) (d : List ℝ) (lo : ℕ) (d' : List ℝ) (i : ℕ),
    runWith f d lo gs = .ok d' → i < lo → d'.getD i 0 = d.getD i 0
  | [], d, lo, d', i, h, _ => by
    simp only [runWith] at h
    cases h
    rfl
  | g :: gs, d, lo, d', i, h, hi => by
    simp only [runWith] at h
    cases hg : f g d lo with
    | error e =>
      rw [hg, except_error_bind] at h
      exact absurd h (by simp)
    | ok d1 =>
      rw [hg, except_ok_bind] at h
      rw [runWith_ok_getD_lt f hf gs d1 _ d' i h (by omega)]
      exact hf g d lo d1 hg i (Or.inl hi)

/-- If every group of the batch suffix is barycentric, the loop returns the
vector unchanged (and in particular succeeds). -/
theorem runWith_all_bary (f : TOAGroup → List ℝ → ℕ → Except String (List ℝ))
    (hf : ∀ g d lo, g.obs = "Barycenter" → f g d lo = .ok d) :
    ∀ (gs : List TOAGroup) (d : List ℝ) (lo : ℕ),
    (∀ g ∈ gs, g.obs = "Barycenter") → runWith f d lo gs = .ok d
  | [], d, lo, _ => rfl
  | g :: gs, d, lo, hall => by
    simp only [runWith]
    rw [hf g d lo (hall g (by simp)), except_ok_bind]
    exact runWith_all_bary f hf gs d _ (fun g' hg' => hall g' (by simp [hg']))

/-- The index slice of a barycentric group is left exactly as it was in the
initial vector, whatever the other groups do. -/
theorem runWith_bary_slice (f : TOAGroup → List ℝ → ℕ → Except String (List ℝ))
    (hf_out : ∀ g d lo d', f g d lo = .ok d' →
      ∀ i, i < lo ∨ lo + groupSize g ≤ i → d'.getD i 0 = d.getD i 0)
    (hf_bary : ∀ g d lo, g.obs = "Barycenter" → f g d lo = .ok d) :
    ∀ (gs : List TOAGroup) (ii : ℕ) (g : TOAGroup) (d : List ℝ) (lo : ℕ)
      (d' : List ℝ) (i : ℕ),
    runWith f d lo gs = .ok d' → gs[ii]? = some g → g.obs = "Barycenter" →
    lo + ((gs.take ii).map groupSize).sum ≤ i →
    i < lo + ((gs.take ii).map groupSize).sum + groupSize g →
    d'.getD i 0 = d.getD i 0
  | [], ii, g, d, lo, d', i, _, hget, _, _, _ => by simp at hget
  | g0 :: gs, 0, g, d, lo, d', i, h, hget, hb, hlo, hhi => by
    simp only [List.getElem?_cons_zero, Option.some_inj] at hget
    subst hget
    simp only [runWith] at h
    rw [hf_bary g0 d lo hb, except_ok_bind] at h
    simp only [List.take_zero, List.map_nil, List.sum_nil, Nat.add_zero] at hlo hhi
    exact runWith_ok_getD_lt f hf_out gs d _ d' i h (by omega)
  | g0 :: gs, ii + 1, g, d, lo, d', i, h, hget, hb, hlo, hhi => by
    simp only [List.getElem?_cons_succ] at hget
    simp only [List.take_succ_cons, List.map_cons, List.sum_cons] at hlo hhi
    simp only [runWith] at h
    cases hg : f g0 d lo with
    | error e =>
      rw [hg, except_error_bind] at h
      exact absurd h (by simp)
    | ok d1 =>
      rw [hg, except_ok_bind] at h
      have hrec := runWith_bary_slice f hf_out hf_bary gs ii g d1 (lo + groupSize g0)
        d' i h hget hb (by omega) (by omega)
      rw [hrec]
      exact hf_out g0 d lo d1 hg i (Or.inr (by omega))

/-- The group loop is additive in a background vector of matching length,
provided each step is additive and length-preserving. -/
theorem runWith_addVec (f : TOAGroup → List ℝ → ℕ → Except String (List ℝ))
    (hf_add : ∀ g d0 d1 lo, d0.length = d1.length →
      f g (addVec d0 d1) lo = (f g d1 lo).map (addVec d0))
    (hf_len : ∀ g d lo d', f g d lo = .ok d' → d'.length = d.length) :
    ∀ (gs : List TOAGroup) (d0 d1 : List ℝ) (lo : ℕ), d0.length = d1.length →
    runWith f (addVec d0 d1) lo gs = (runWith f d1 lo gs).map (addVec d0)
  | [], d0, d1, lo, _ => rfl
  | g :: gs, d0, d1, lo, h => by
    simp only [runWith]
    rw [hf_add g d0 d1 lo h]
    cases hg : f g d1 lo with
    | error e => rfl
    | ok d1' =>
      simp only [Except.map, except_ok_bind]
      rw [runWith_addVec f hf_add hf_len gs d0 d1' _ (by rw [h, hf_len g d1 lo d1' hg])]
      rfl

/-- If some group of the batch makes every step fail, the whole loop
fails. -/
theorem runWith_error_mem (f : TOAGroup → List ℝ → ℕ → Except String (List ℝ)) :
    ∀ (gs : List TOAGroup) (g : TOAGroup), g ∈ gs →
    (∀ d lo, ∃ e, f g d lo = .error e) →
    ∀ (d : List ℝ) (lo : ℕ), ∃ e, runWith f d lo gs = .error e
  | [], g, hmem, _, _, _ => absurd hmem (List.not_mem_nil g)
  | g0 :: gs, g, hmem, hfail, d, lo => by
    simp only [runWith]
    cases hg : f g0 d lo with
    | error e => exact ⟨e, by rw [except_error_bind]⟩
    | ok d1 =>
      rw [except_ok_bind]
      rcases List.mem_cons.mp hmem with h1 | h1
      · subst h1
        rcases hfail d lo with ⟨e, he⟩
        rw [he] at hg
        exact absurd hg (by simp)
      · exact runWith_error_mem f gs g h1 hfail d1 _

/-- Pointwise equal step functions run to the same result. -/
theorem runWith_congr_fun (f f' : TOAGroup → List ℝ → ℕ → Except String (List ℝ))
    (h : ∀ g d lo, f g d lo = f' g d lo) :
    ∀ (gs : List TOAGroup) (d : List ℝ) (lo : ℕ),
    runWith f d lo gs = runWith f' d lo gs
  | [], d, lo => rfl
  | g :: gs, d, lo => by
    simp only [runWith]
    rw [h g d lo]
    cases f' g d lo with
    | error e => rfl
    | ok d1 =>
      rw [except_ok_bind, except_ok_bind]
      exact runWith_congr_fun f f' h gs d1 _

/-- Batches that agree in the step function's eyes run to the same result. -/
theorem runWith_forall₂ (f : TOAGroup → List ℝ → ℕ → Except String (List ℝ))
    (R : TOAGroup → TOAGroup → Prop)
    (hsize : ∀ g g', R g g' → groupSize g = groupSize g')
    (hf : ∀ g g', R g g' → ∀ d lo, f g d lo = f g' d lo) :
    ∀ (gs gs' : List TOAGroup), List.Forall₂ R gs gs' →
    ∀ (d : List ℝ) (lo : ℕ), runWith f d lo gs = runWith f d lo gs'
  | [], [], _, _, _ => rfl
  | [], _ :: _, hR, _, _ => by cases hR
  | _ :: _, [], hR, _, _ => by cases hR
  | g :: gs, g' :: gs', hR, d, lo => by
    rcases hR with _ | ⟨hgg, htail⟩
    simp only [runWith]
    rw [hf g g' hgg d lo, hsize g g' hgg]
    cases f g' d lo with
    | error e => rfl
    | ok d1 =>
      rw [except_ok_bind, except_ok_bind]
      exact runWith_forall₂ f R hsize hf gs gs' htail d1 _

/-- With `PLANET_SHAPIRO` disabled the group step is the Sun-only step. -/
theorem processGroup_false_eq (m : SolarSystemShapiro) (hp : m.PLANET_SHAPIRO = false)
    (g : TOAGroup) (d : List ℝ) (lo : ℕ) :
    processGroup m g d lo = processGroupSunOnly m g d lo := by
  by_cases hb : g.obs = "Barycenter"
  · rw [processGroup_bary m g d lo hb]
    simp [processGroupSunOnly, hb]
  · cases hs : lookupCol g "obs_sun_pos" with
    | none =>
      rw [processGroup_sun_none m g d lo hb hs]
      unfold processGroupSunOnly getCol
      rw [if_neg hb, hs]
      rfl
    | some pos =>
      rw [processGroup_sun_some_false m g d lo pos hb hp hs]
      unfold processGroupSunOnly getCol
      rw [if_neg hb, hs]
      rfl

/-- With `PLANET_SHAPIRO` enabled the group step is the Sun-plus-four-planets
step of the spec, with exactly Jupiter, Saturn, Venus, Uranus. -/
theorem processGroup_true_eq (m : SolarSystemShapiro) (hp : m.PLANET_SHAPIRO = true)
    (g : TOAGroup) (d : List ℝ) (lo : ℕ) :
    processGroup m g d lo = processGroupSunPlanets m g d lo := by
  by_cases hb : g.obs = "Barycenter"
  · rw [processGroup_bary m g d lo hb]
    simp [processGroupSunPlanets, hb]
  · cases hs : lookupCol g "obs_sun_pos" with
    | none =>
      rw [processGroup_sun_none m g d lo hb hs]
      unfold processGroupSunPlanets getCol
      rw [if_neg hb, hs]
      rfl
    | some sun =>
      rw [processGroup_sun_some_true m g d lo sun hb hp hs]
      unfold processGroupSunPlanets getCol addPlanets planet_list
      rw [if_neg hb, hs]
      simp only [List.foldlM_cons, List.foldlM_nil]
      cases hj : lookupCol g "obs_jupiter_pos" with
      | none =>
        rw [planetStep_of_none g _ lo _ "jupiter" hj, except_error_bind]
        rfl
      | some jp =>
        rw [planetStep_of_some g _ lo _ "jupiter" jp hj, except_ok_bind]
        cases hsat : lookupCol g "obs_saturn_pos" with
        | none =>
          rw [planetStep_of_none g _ lo _ "saturn" hsat, except_error_bind]
          rfl
        | some sat =>
          rw [planetStep_of_some g _ lo _ "saturn" sat hsat, except_ok_bind]
          cases hven : lookupCol g "obs_venus_pos" with
          | none =>
            rw [planetStep_of_none g _ lo _ "venus" hven, except_error_bind]
            rfl
          | some ven =>
            rw [planetStep_of_some g _ lo _ "venus" ven hven, except_ok_bind]
            cases hura : lookupCol g "obs_uranus_pos" with
            | none =>
              rw [planetStep_of_none g _ lo _ "uranus" hura, except_error_bind]
              rfl
            | some ura =>
              rw [planetStep_of_some g _ lo _ "uranus" ura hura, except_ok_bind]
              rfl

/-- None of the four planetary columns the module reads is an excluded one. -/
theorem planets_not_excluded :
    ∀ pl ∈ planet_list, ("obs_" ++ pl ++ "_pos") ∉ excluded_cols := by decide

/-- The planet fold only reads the four planetary columns: groups agreeing
on them fold identically. -/
theorem foldPlanets_congr (g g' : TOAGroup) (dir : List Vec3) (lo : ℕ) :
    ∀ (l : List String) (d : List ℝ),
    (∀ pl ∈ l, lookupCol g ("obs_" ++ pl ++ "_pos") = lookupCol g' ("obs_" ++ pl ++ "_pos")) →
    List.foldlM (planetStep g dir lo) d l = List.foldlM (planetStep g' dir lo) d l
  | [], _, _ => rfl
  | pl :: l, d, hall => by
    rw [List.foldlM_cons, List.foldlM_cons]
    have hpl := hall pl (by simp)
    cases hq : lookupCol g' ("obs_" ++ pl ++ "_pos") with
    | none =>
      rw [planetStep_of_none g dir lo d pl (hpl.trans hq),
        planetStep_of_none g' dir lo d pl hq]
      rfl
    | some pos =>
      rw [planetStep_of_some g dir lo d pl pos (hpl.trans hq),
        planetStep_of_some g' dir lo d pl pos hq, except_ok_bind, except_ok_bind]
      exact foldPlanets_congr g g' dir lo l _ (fun q hq' => hall q (by simp [hq']))

/-- Agreeing groups have equal sizes. -/
theorem groupAgrees_size (g g' : TOAGroup) (h : GroupAgrees g g') :
    groupSize g = groupSize g' := by
  unfold groupSize
  rw [h.2.1]

/-- The group step reads nothing outside `obs`, `tdbld`, the Sun column and
the four planetary columns: agreeing groups step identically. -/
theorem processGroup_congr (m : SolarSystemShapiro) (g g' : TOAGroup)
    (hR : GroupAgrees g g') (d : List ℝ) (lo : ℕ) :
    processGroup m g d lo = processGroup m g' d lo := by
  obtain ⟨hobs, htdb, hcols⟩ := hR
  by_cases hb : g.obs = "Barycenter"
  · rw [processGroup_bary m g d lo hb, processGroup_bary m g' d lo (hobs ▸ hb)]
  · have hb' : ¬ g'.obs = "Barycenter" := by rw [← hobs]; exact hb
    have hsun : lookupCol g "obs_sun_pos" = lookupCol g' "obs_sun_pos" :=
      hcols _ (by decide)
    have hdir : g.tdbld.map m.ssb_to_psb_xyz = g'.tdbld.map m.ssb_to_psb_xyz := by
      rw [htdb]
    cases hs : lookupCol g' "obs_sun_pos" with
    | none =>
      rw [processGroup_sun_none m g d lo hb (hsun.trans hs),
        processGroup_sun_none m g' d lo hb' hs]
    | some pos =>
      cases hp : m.PLANET_SHAPIRO with
      | false =>
        rw [processGroup_sun_some_false m g d lo pos hb hp (hsun.trans hs),
          processGroup_sun_some_false m g' d lo pos hb' hp hs, hdir]
      | true =>
        rw [processGroup_sun_some_true m g d lo pos hb hp (hsun.trans hs),
          processGroup_sun_some_true m g' d lo pos hb' hp hs, hdir]
        exact foldPlanets_congr g g' _ lo planet_list _
          (fun pl hpl => hcols _ (planets_not_excluded pl hpl))

/-- Agreeing batches have the same total observation count. -/
theorem forall₂_sum_groupSize : ∀ (gs gs' : List TOAGroup),
    List.Forall₂ GroupAgrees gs gs' →
    (gs.map groupSize).sum = (gs'.map groupSize).sum
  | [], [], _ => rfl
  | [], _ :: _, h => by cases h
  | _ :: _, [], h => by cases h
  | g :: gs, g' :: gs', h => by
    rcases h with _ | ⟨hgg, htail⟩
    simp only [List.map_cons, List.sum_cons]
    rw [forall₂_sum_groupSize gs gs' htail, groupAgrees_size g g' hgg]

/-- C2: with `PLANET_SHAPIRO` false the result is the Sun-only contribution;
with it true the result is Sun plus exactly the Jupiter/Saturn/Venus/Uranus
contributions; and the result never depends on Mercury/Earth/Mars/Neptune
position columns, whatever their presence in the batch. -/
theorem C2_planet_toggle (m : SolarSystemShapiro) (t t' : TOAs) :
    (m.PLANET_SHAPIRO = false →
      solar_system_shapiro_delay m t = sun_only_delay m t) ∧
    (m.PLANET_SHAPIRO = true →
      solar_system_shapiro_delay m t = sun_planets_delay m t) ∧
    (BatchAgrees t t' →
      solar_system_shapiro_delay m t = solar_system_shapiro_delay m t') := by
  refine ⟨fun hp => ?_, fun hp => ?_, fun hB => ?_⟩
  · unfold solar_system_shapiro_delay sun_only_delay
    exact runWith_congr_fun _ _ (fun g d lo => processGroup_false_eq m hp g d lo)
      t.groups _ 0
  · unfold solar_system_shapiro_delay sun_planets_delay
    exact runWith_congr_fun _ _ (fun g d lo => processGroup_true_eq m hp g d lo)
      t.groups _ 0
  · unfold solar_system_shapiro_delay
    have hlen : totalLen t = totalLen t' := forall₂_sum_groupSize t.groups t'.groups hB
    rw [hlen]
    exact runWith_forall₂ (processGroup m) GroupAgrees groupAgrees_size
      (fun g g' hgg d lo => processGroup_congr m g g' hgg d lo) t.groups t'.groups hB _ 0

/-- C2 witness: the toggle property at a concrete component and batch. -/
theorem C2_witness :
    (mFalse.PLANET_SHAPIRO = false →
      solar_system_shapiro_delay mFalse tEmpty = sun_only_delay mFalse tEmpty) ∧
    (mFalse.PLANET_SHAPIRO = true →
      solar_system_shapiro_delay mFalse tEmpty = sun_planets_delay mFalse tEmpty) ∧
    (BatchAgrees tEmpty tEmpty →
      solar_system_shapiro_delay mFalse tEmpty = solar_system_shapiro_delay mFalse tEmpty) :=
  C2_planet_toggle mFalse tEmpty tEmpty

/-- C3: a group labelled `Barycenter` contributes exactly zero to every
observation of its index range, whatever its position columns hold; and an
all-barycentric batch is not an error, it returns the zero vector. -/
theorem C3_barycenter_zero (m : SolarSystemShapiro) (t : TOAs) (d : List ℝ)
    (ii i : ℕ) (g : TOAGroup) (hget : t.groups[ii]? = some g)
    (hb : g.obs = "Barycenter") (hok : solar_system_shapiro_delay m t = .ok d)
    (hlo : offsetOf t ii ≤ i) (hhi : i < offsetOf t ii + groupSize g) :
    d.getD i 0 = 0 ∧
      ((∀ g' ∈ t.groups, g'.obs = "Barycenter") →
        solar_system_shapiro_delay m t = .ok (List.replicate (totalLen t) 0)) := by
  constructor
  · have h0 := runWith_bary_slice (processGroup m)
      (fun g1 d1 lo1 d1' h1 i1 hi1 => processGroup_ok_getD m g1 d1 lo1 d1' h1 i1 hi1)
      (fun g1 d1 lo1 hb1 => processGroup_bary m g1 d1 lo1 hb1)
      t.groups ii g (List.replicate (totalLen t) 0) 0 d i hok hget hb
      (by simpa [offsetOf] using hlo) (by simpa [offsetOf] using hhi)
    rw [h0, getD_replicate_zero]
  · intro hall
    unfold solar_system_shapiro_delay
    exact runWith_all_bary _ (fun g1 d1 lo1 hb1 => processGroup_bary m g1 d1 lo1 hb1)
      t.groups _ 0 hall

/-- C3 witness: a one-observation barycentric batch, evaluated concretely. -/
theorem C3_witness :
    tBary.groups[0]? = some gBary ∧ gBary.obs = "Barycenter" ∧
      solar_system_shapiro_delay mTrue tBary = .ok [0] ∧
      offsetOf tBary 0 ≤ 0 ∧ 0 < offsetOf tBary 0 + groupSize gBary ∧
      (([0] : List ℝ).getD 0 0 = 0 ∧
        ((∀ g' ∈ tBary.groups, g'.obs = "Barycenter") →
          solar_system_shapiro_delay mTrue tBary
            = .ok (List.replicate (totalLen tBary) 0))) :=
  ⟨rfl, rfl, rfl, Nat.le_refl 0, by decide,
    C3_barycenter_zero mTrue tBary [0] 0 0 gBary rfl rfl rfl (Nat.le_refl 0) (by decide)⟩

/-- C4: the returned vector's length is the total observation count, and the
loop is strictly additive into the zero-initialised vector: starting it from
any background vector of the right length just adds that background. -/
theorem C4_length_and_additive (m : SolarSystemShapiro) (t : TOAs) (d d0 : List ℝ)
    (hok : solar_system_shapiro_delay m t = .ok d) (hd0 : d0.length = totalLen t) :
    d.length = totalLen t ∧
      runWith (processGroup m) d0 0 t.groups
        = (solar_system_shapiro_delay m t).map (addVec d0) := by
  constructor
  · have h1 := runWith_ok_length (processGroup m)
      (fun g1 d1 lo1 d1' h1 => processGroup_ok_length m g1 d1 lo1 d1' h1)
      t.groups (List.replicate (totalLen t) 0) 0 d hok
    rw [h1, List.length_replicate]
  · have h2 : d0 = addVec d0 (List.replicate (totalLen t) 0) :=
      (addVec_replicate_zero d0 (totalLen t) hd0).symm
    calc runWith (processGroup m) d0 0 t.groups
        = runWith (processGroup m) (addVec d0 (List.replicate (totalLen t) 0))
            0 t.groups := by rw [← h2]
      _ = (runWith (processGroup m) (List.replicate (totalLen t) 0) 0 t.groups).map
            (addVec d0) :=
          runWith_addVec (processGroup m)
            (fun g1 e0 e1 lo1 hl => processGroup_addVec m g1 e0 e1 lo1 hl)
            (fun g1 d1 lo1 d1' h1 => processGroup_ok_length m g1 d1 lo1 d1' h1)
            t.groups d0 (List.replicate (totalLen t) 0) 0
            (by rw [hd0, List.length_replicate])
      _ = (solar_system_shapiro_delay m t).map (addVec d0) := rfl

/-- C4 witness: the empty batch, evaluated concretely. -/
theorem C4_witness :
    solar_system_shapiro_delay mTrue tEmpty = .ok [] ∧
      ([] : List ℝ).length = totalLen tEmpty ∧
      (([] : List ℝ).length = totalLen tEmpty ∧
        runWith (processGroup mTrue) [] 0 tEmpty.groups
          = (solar_system_shapiro_delay mTrue tEmpty).map (addVec [])) :=
  ⟨rfl, rfl, C4_length_and_additive mTrue tEmpty [] [] rfl rfl⟩

/-- C5: with `PLANET_SHAPIRO` enabled, a non-barycentric group missing one
of the four required planetary position columns makes the whole computation
fail with an error (the `KeyError` reaches the caller), never silently
treating the planet's contribution as zero. -/
theorem C5_missing_planet_errors (m : SolarSystemShapiro) (t : TOAs) (g : TOAGroup)
    (pl : String) (hp : m.PLANET_SHAPIRO = true) (hg : g ∈ t.groups)
    (hb : ¬ g.obs = "Barycenter") (hpl : pl ∈ planet_list)
    (hmiss : lookupCol g ("obs_" ++ pl ++ "_pos") = none) :
    ∃ e, solar_system_shapiro_delay m t = .error e := by
  unfold solar_system_shapiro_delay
  exact runWith_error_mem (processGroup m) t.groups g hg
    (fun d lo => processGroup_error_planet m g d lo pl hp hb hpl hmiss) _ 0

/-- C5 witness: a batch with one non-barycentric group lacking the Jupiter
column. -/
theorem C5_witness :
    mTrue.PLANET_SHAPIRO = true ∧ gObs ∈ tBad.groups ∧
      ¬ gObs.obs = "Barycenter" ∧ "jupiter" ∈ planet_list ∧
      lookupCol gObs ("obs_" ++ "jupiter" ++ "_pos") = none ∧
      ∃ e, solar_system_shapiro_delay mTrue tBad = .error e :=
  ⟨rfl, by simp [tBad], by decide, by decide, rfl,
    C5_missing_planet_errors mTrue tBad gObs "jupiter" rfl (by simp [tBad])
      (by decide) (by decide) rfl⟩

/-- C6: the delay computation is deterministic: it is a pure function of the
component's parameter values and the batch, so equal inputs give identical
output vectors. -/
theorem C6_deterministic (m m' : SolarSystemShapiro) (t t' : TOAs)
    (hm : m = m') (ht : t = t') :
    solar_system_shapiro_delay m t = solar_system_shapiro_delay m' t' := by
  rw [hm, ht]

/-- C6 witness: two invocations at the same concrete inputs agree. -/
theorem C6_witness :
    mTrue = mTrue ∧ tEmpty = tEmpty ∧
      solar_system_shapiro_delay mTrue tEmpty
        = solar_system_shapiro_delay mTrue tEmpty :=
  ⟨rfl, rfl, C6_deterministic mTrue mTrue tEmpty tEmpty rfl rfl⟩

/-- C7: when the norm of the object position strictly exceeds its dot
product with the pulsar direction, the logarithm's argument is strictly
positive (the non-finite branch is unreachable), and the delay magnitude
strictly grows as `r - rcostheta` shrinks towards zero inside `(0, au]`, for
any nonzero mass. -/
theorem C7_log_argument (p d : Vec3) (T : ℝ) (h : dot3 p d < norm3 p) :
    0 < (norm3 p - dot3 p d) / au ∧
      ∀ q e, T ≠ 0 → norm3 p - dot3 p d < norm3 q - dot3 q e →
        norm3 q - dot3 q e ≤ au →
        |ss_obj_shapiro_delay1 q e T| < |ss_obj_shapiro_delay1 p d T| := by
  have hau : (0:ℝ) < au := by norm_num [au]
  have hs : 0 < norm3 p - dot3 p d := by linarith
  refine ⟨div_pos hs hau, fun q e hT hlt hle => ?_⟩
  have hs' : 0 < norm3 q - dot3 q e := lt_trans hs hlt
  have h1 : ss_obj_shapiro_delay1 p d T
      = -2 * T * Real.log ((norm3 p - dot3 p d) / au) := rfl
  have h2 : ss_obj_shapiro_delay1 q e T
      = -2 * T * Real.log ((norm3 q - dot3 q e) / au) := rfl
  rw [h1, h2]
  have hdivlt : (norm3 p - dot3 p d) / au < (norm3 q - dot3 q e) / au := by gcongr
  have hloglt : Real.log ((norm3 p - dot3 p d) / au)
      < Real.log ((norm3 q - dot3 q e) / au) :=
    Real.log_lt_log (div_pos hs hau) hdivlt
  have hlogq : Real.log ((norm3 q - dot3 q e) / au) ≤ 0 :=
    Real.log_nonpos (by positivity) ((div_le_one hau).mpr hle)
  have hlogp : Real.log ((norm3 p - dot3 p d) / au) ≤ 0 := le_of_lt (lt_of_lt_of_le hloglt hlogq)
  have habs : ∀ x : ℝ, |(-2) * T * x| = 2 * |T| * |x| := by
    intro x
    rw [abs_mul, abs_mul]
    norm_num
  rw [habs, habs, abs_of_nonpos hlogq, abs_of_nonpos hlogp]
  have hTpos : 0 < 2 * |T| := by positivity
  have : -Real.log ((norm3 q - dot3 q e) / au) < -Real.log ((norm3 p - dot3 p d) / au) := by
    linarith
  exact mul_lt_mul_of_pos_left this hTpos

/-- C7 witness: position `(1,1,1)` and direction `(0,0,0)` give a strictly
positive `r - rcostheta`. -/
theorem C7_witness :
    dot3 vOne vZero < norm3 vOne ∧
      (0 < (norm3 vOne - dot3 vOne vZero) / au ∧
        ∀ q e, (1:ℝ) ≠ 0 → norm3 vOne - dot3 vOne vZero < norm3 q - dot3 q e →
          norm3 q - dot3 q e ≤ au →
          |ss_obj_shapiro_delay1 q e 1| < |ss_obj_shapiro_delay1 vOne vZero 1|) := by
  have h : dot3 vOne vZero < norm3 vOne := by
    have h1 : dot3 vOne vZero = 0 := by simp [dot3, vOne, vZero]
    have h2 : norm3 vOne = Real.sqrt 3 := by
      unfold norm3 vOne
      norm_num [Fin.sum_univ_three]
    rw [h1, h2]
    exact Real.sqrt_pos.mpr (by norm_num)
  exact ⟨h, C7_log_argument vOne vZero 1 h⟩

end SolarShapiro
